import Mathlib

/-!
# reed: a typed accessor layer over a document database (`driver.go`)

A shallow embedding of the pure part of `driver.go` (the helpers `MapMerge`,
`StructToMap`, `MergeQueryOptions`, `MergeFilters`, `parseFilter`,
`genInsertSettings`) and of the collection operations built on them, followed
by theorems about their contracts.

Modelling conventions.

* A Go `map[string]any` (`primitive.M`, `bson.M`) that the code reads, writes
  or ranges over is an `AList`: a list of entries with pairwise distinct keys.
  Go leaves the iteration order of `range` unspecified; the order of the
  entries of the `AList` stands for the order one particular run picks, and
  every theorem quantifies over all `AList`s, hence over all orders.
* A Go value of interface type (`any`) is a `Value`.
* A call has one of three outcomes: it returns normally, it returns a non-nil
  `error`, or it panics. The panics of the model are those of the statements
  of `driver.go`: the type assertion `value.(string)` on a value that is not a
  string, `t.NumField()` on a type that is not a struct, `t.Kind()` and
  `fieldType.Kind()` on the nil `reflect.Type` that `reflect.TypeOf` returns
  for the nil interface, and `v.Field(i).Interface()` on a field that is not
  exported.
* The clock is a parameter: `now` is the text `time.Now().String()`.
* The database is not modelled. An operation yields the list of requests it
  sends to the driver together with its outcome; the driver's answers are
  taken from an arbitrary `Driver`.
-/

namespace Reed

/-! ## Values -/

/-- Native identifier `primitive.ObjectID`, in Go a `[12]byte`. -/
structure ObjectID where
  bytes : List Nat
deriving DecidableEq, Repr

/-- One field of a struct as `reflect` presents it: whether the field is
exported, the value of the `json` key of its tag (`Tag.Get("json")`, empty
when the tag has no such key) and the value it holds. -/
structure Field (V : Type) where
  exported : Bool
  jsonTag : String
  value : V
deriving Repr

/-- Dynamic Go values (`any`). `null` is the nil interface; `nilSlice` is a
slice that is nil, such as a `var ids []primitive.ObjectID` nothing was
appended to, and `list` is a slice that is not nil; `map` holds the entries of
a `map[string]any`; `struct` holds the fields of a struct value in declaration
order. -/
inductive Value where
  | null
  | bool (b : Bool)
  | int (n : Int)
  | str (s : String)
  | oid (o : ObjectID)
  | nilSlice
  | list (vs : List Value)
  | map (entries : List (String × Value))
  | struct (fields : List (Field Value))
deriving Repr

/-- Go map with string keys: `primitive.M`, `bson.M`, `map[string]any`. -/
abbrev GoMap := AList (fun _ : String => Value)

/-- A map stored as a value inside another map, e.g. under `"$set"`. -/
def GoMap.toValue (m : GoMap) : Value :=
  Value.map (m.entries.map fun e => (e.1, e.2))

/-- Map with the single entry `k: v`, the Go literal `primitive.M{k: v}`. -/
def GoMap.single (k : String) (v : Value) : GoMap :=
  AList.insert k v ∅

/-! ## Outcomes -/

/-- Errors of `encoding/hex` and of `primitive.ObjectIDFromHex`. -/
inductive HexError where
  | ErrInvalidHex
  | InvalidByteError (b : Nat)
  | ErrLength
deriving DecidableEq, Repr

/-- Errors reported by the database driver; `mongo.ErrNoDocuments` is the one
the code tells apart. -/
inductive DbError where
  | ErrNoDocuments
  | other (code : Nat)
deriving DecidableEq, Repr

/-- Go `error` values that the operations can return. -/
inductive Err where
  | hex (e : HexError)
  | db (e : DbError)
deriving DecidableEq, Repr

/-- Outcome of a call: normal return with a nil error, return with a non-nil
error, or a run-time panic. -/
inductive Outcome (α : Type) where
  | ok (a : α)
  | err (e : Err)
  | panicked
deriving Repr

/-! ## Identifier decoding (`primitive.ObjectIDFromHex`) -/

/-- Bytes of a Go string: its UTF-8 encoding. -/
def goBytes (s : String) : List Nat :=
  (s.data.flatMap String.utf8EncodeChar).map UInt8.toNat

/-- Go `hex.fromHexChar`: the value of one hexadecimal digit. -/
def fromHexChar (c : Nat) : Option Nat :=
  if 48 ≤ c ∧ c ≤ 57 then some (c - 48)
  else if 97 ≤ c ∧ c ≤ 102 then some (c - 97 + 10)
  else if 65 ≤ c ∧ c ≤ 70 then some (c - 65 + 10)
  else none

/-- Go `hex.Decode` on the source bytes: pairs of digits become bytes; the
first byte that is not a digit is reported, and an odd length is reported
after the digits have been checked. -/
def hexDecode : List Nat → Except HexError (List Nat)
  | [] => .ok []
  | [p] =>
    match fromHexChar p with
    | none => .error (.InvalidByteError p)
    | some _ => .error .ErrLength
  | p :: q :: rest =>
    match fromHexChar p, fromHexChar q with
    | none, _ => .error (.InvalidByteError p)
    | some _, none => .error (.InvalidByteError q)
    | some a, some b =>
      match hexDecode rest with
      | .ok bs => .ok ((a * 16 + b) :: bs)
      | .error e => .error e

/-- Modelled from the spec: `primitive.ObjectIDFromHex` is a function of the
MongoDB driver, which `driver.go` imports and the repository does not contain.
The spec has it fail on a wrong length and on non-hex characters and succeed
on 24 hexadecimal characters; the model does so the way the driver does: a
string whose length is not 24 bytes is `ErrInvalidHex`, otherwise the result
is that of `hex.Decode`. -/
def ObjectIDFromHex (s : String) : Except HexError ObjectID :=
  if (goBytes s).length ≠ 24 then .error .ErrInvalidHex
  else
    match hexDecode (goBytes s) with
    | .ok bs => .ok ⟨bs⟩
    | .error e => .error e

/-- A byte that is a hexadecimal digit `0-9`, `a-f` or `A-F`. -/
def IsHexByte (c : Nat) : Prop :=
  (48 ≤ c ∧ c ≤ 57) ∨ (97 ≤ c ∧ c ≤ 102) ∨ (65 ≤ c ∧ c ≤ 70)

/-- A hexadecimal character `0-9`, `a-f` or `A-F`. -/
def IsHexChar (c : Char) : Prop :=
  ('0' ≤ c ∧ c ≤ '9') ∨ ('a' ≤ c ∧ c ≤ 'f') ∨ ('A' ≤ c ∧ c ≤ 'F')

/-- A valid identifier string: 24 hexadecimal characters. -/
def IsHexIdentifier (s : String) : Prop :=
  s.length = 24 ∧ ∀ c ∈ s.data, IsHexChar c

/-! ## Tool functions -/

/-- Go `MapMerge`: the first map that has a key decides its value. -/
def MapMerge {T S : Type} [DecidableEq T] (ms : List (AList fun _ : T => S)) :
    AList fun _ : T => S :=
  ms.foldl
    (fun res m =>
      m.entries.foldl
        (fun res e => if (res.lookup e.1).isSome then res else res.insert e.1 e.2)
        res)
    ∅

/-- The part of a `json` tag before its first comma,
`strings.Split(tag, ",")[0]`. -/
def jsonName (tag : String) : String :=
  String.mk (tag.data.takeWhile fun c => c != ',')

/-- The inner loop `for k, v := range newMap { settings[k] = v }`. -/
def copyInto (settings : GoMap) (newMap : GoMap) : GoMap :=
  newMap.entries.foldl (fun s e => s.insert e.1 e.2) settings

mutual
/-- Go `StructToMap`. `t.NumField()` panics when `s` is not a struct. -/
def StructToMap : Value → Outcome GoMap
  | .struct fields => StructToMap.loop fields ∅
  | _ => .panicked
/-- The loop of `StructToMap` over the fields from index `i` on, with the
`settings` built so far. `v.Field(i).Interface()` panics on a field that is
not exported, and `reflect.TypeOf(value).Kind()` panics when `value` is the
nil interface. -/
def StructToMap.loop : List (Field Value) → GoMap → Outcome GoMap
  | [], settings => .ok settings
  | ⟨exported, tag, value⟩ :: rest, settings =>
    if exported = false then .panicked
    else if jsonName tag = "" then
      match value with
      | .null => .panicked
      | .struct fields =>
        -- `newMap := StructToMap(value)`
        match StructToMap (.struct fields) with
        | .ok newMap => StructToMap.loop rest (copyInto settings newMap)
        | .err e => .err e
        | .panicked => .panicked
      | _ => StructToMap.loop rest settings
    else StructToMap.loop rest (settings.insert (jsonName tag) value)
end

/-! ## Merging of query options and of filters -/

/-- Go `QueryOptions`. `Filters` and `Project` are maps and may be nil
(`none`); a non-nil map may still be empty. -/
structure QueryOptions where
  Filters : Option GoMap
  Project : Option (AList fun _ : String => Int)
  WithoutPagination : Bool

/-- Go `NewQueryOptions`: the zero value `&QueryOptions{}`. -/
def NewQueryOptions : QueryOptions :=
  { Filters := none, Project := none, WithoutPagination := false }

/-- One iteration of the loop of `MergeQueryOptions`; `co = none` is a nil
pointer, which the loop skips. -/
def MergeQueryOptions.step (qOpts : QueryOptions) : Option QueryOptions → QueryOptions
  | none => qOpts
  | some co =>
    { Filters := if co.Filters.isSome then co.Filters else qOpts.Filters
      Project := if co.Project.isSome then co.Project else qOpts.Project
      WithoutPagination := co.WithoutPagination }

/-- Go `MergeQueryOptions`. -/
def MergeQueryOptions (opts : List (Option QueryOptions)) : QueryOptions :=
  opts.foldl MergeQueryOptions.step NewQueryOptions

/-- Go `MergeFilters`: every entry of every fragment is written into the
merged map, fragment after fragment. -/
def MergeFilters (filters : List GoMap) : GoMap :=
  filters.foldl
    (fun mergedMap f => f.entries.foldl (fun m e => m.insert e.1 e.2) mergedMap)
    ∅

/-! ## Filters and settings of a collection -/

/-- The loop of `parseFilter` over the entries still to visit, `filter` being
the map as updated so far. The type assertion `value.(string)` panics when
`value` is not a string. -/
def parseFilter.loop : List (Sigma fun _ : String => Value) → GoMap → Outcome GoMap
  | [], filter => .ok filter
  | ⟨key, value⟩ :: rest, filter =>
    if key = "_id" then
      match value with
      | .str s =>
        match ObjectIDFromHex s with
        | .error e => .err (.hex e)
        | .ok v => parseFilter.loop rest (filter.insert key (.oid v))
      | _ => .panicked
    else parseFilter.loop rest filter

/-- Go `parseFilter`. -/
def parseFilter (filter : GoMap) : Outcome GoMap :=
  parseFilter.loop filter.entries filter

/-- The value `time.Now().String()[0:19]` for the clock reading `now`, the
text `time.Now().String()`, which starts with `2006-01-02 15:04:05`. -/
def timestamp (now : String) : String :=
  String.mk (now.data.take 19)

/-- The map branch of `genInsertSettings`: for every key of `v.MapKeys()` the
value `v.MapIndex(key)` is stored under `key.String()`. -/
def copyMap (entries : List (String × Value)) : GoMap :=
  (entries.map Prod.fst).foldl
    (fun settings key =>
      match List.lookup key entries with
      | some value => settings.insert key value
      | none => settings)
    ∅

/-- The last two statements of `genInsertSettings`: stamp, then drop the
identifier. -/
def stamp (now : String) (settings : GoMap) : GoMap :=
  (settings.insert "sys_updated_at" (.str (timestamp now))).erase "_id"

/-- Go `genInsertSettings`, for the clock reading `now`. `t.Kind()` panics
when `insertInfo` is the nil interface. -/
def genInsertSettings (now : String) : Value → Outcome GoMap
  | .null => .panicked
  | .map entries => .ok (stamp now (copyMap entries))
  | insertInfo =>
    match StructToMap insertInfo with
    | .ok settings => .ok (stamp now settings)
    | .err e => .err e
    | .panicked => .panicked

/-! ## Collection operations -/

/-- Requests sent to the driver's collection, with their arguments. -/
inductive DbCall where
  | FindOne (filter project : GoMap)
  | Find (filter project : GoMap)
  | UpdateOne (filter update : GoMap) (upsert : Bool)
  | FindOneAndUpdate (filter update : GoMap)
  | DeleteOne (filter : GoMap)
  | DeleteMany (filter : GoMap)

/-- Answers of the driver: for a request that decodes one document of the
model type `T`, for one that decodes all documents of a cursor, and for a
write with result type `R`. `zero` is the zero value of `T`. -/
structure Driver (T R : Type) where
  zero : T
  one : DbCall → Except DbError T
  all : DbCall → Except DbError (List T)
  write : DbCall → Except DbError R

/-- What an operation did: the requests it sent, in order, and its outcome. -/
structure Run (α : Type) where
  calls : List DbCall
  ret : Outcome α

/-- The pair `r, err` of a write passed on to the caller. -/
def ofWrite {R : Type} : Except DbError R → Outcome R
  | .ok r => .ok r
  | .error e => .err (.db e)

/-- The update document of `UpdateOne`, `UpsertOne` and `FindOneAndUpdate`:
`{"$set": settings}`, merged with `extraSetting` when that is not nil. -/
def updateDoc (settings : GoMap) : Option GoMap → GoMap
  | none => GoMap.single "$set" settings.toValue
  | some extraSetting => MapMerge [GoMap.single "$set" settings.toValue, extraSetting]

/-- Go `FindOne`. -/
def FindOne {T R : Type} (d : Driver T R) (filter project : GoMap) : Run T :=
  match parseFilter filter with
  | .err e => ⟨[], .err e⟩
  | .panicked => ⟨[], .panicked⟩
  | .ok filter =>
    match d.one (.FindOne filter project) with
    | .ok result => ⟨[.FindOne filter project], .ok result⟩
    | .error .ErrNoDocuments => ⟨[.FindOne filter project], .ok d.zero⟩
    | .error e => ⟨[.FindOne filter project], .err (.db e)⟩

/-- Go `Find`; the answer of the driver covers `Find` and `cursor.All`. -/
def Find {T R : Type} (d : Driver T R) (filter project : GoMap) : Run (List T) :=
  match parseFilter filter with
  | .err e => ⟨[], .err e⟩
  | .panicked => ⟨[], .panicked⟩
  | .ok filter =>
    match d.all (.Find filter project) with
    | .ok result => ⟨[.Find filter project], .ok result⟩
    | .error e => ⟨[.Find filter project], .err (.db e)⟩

/-- Common body of `UpdateOne` (`upsert = false`) and `UpsertOne`
(`upsert = true`), which differ in the update options only. -/
def updateWith {T R : Type} (upsert : Bool) (d : Driver T R) (now : String)
    (filter : GoMap) (insertInfo : Value) (extraSetting : Option GoMap) : Run R :=
  match parseFilter filter with
  | .err e => ⟨[], .err e⟩
  | .panicked => ⟨[], .panicked⟩
  | .ok filter =>
    match genInsertSettings now insertInfo with
    | .err e => ⟨[], .err e⟩
    | .panicked => ⟨[], .panicked⟩
    | .ok settings =>
      ⟨[.UpdateOne filter (updateDoc settings extraSetting) upsert],
        ofWrite (d.write (.UpdateOne filter (updateDoc settings extraSetting) upsert))⟩

/-- Go `UpdateOne`. -/
def UpdateOne {T R : Type} (d : Driver T R) (now : String)
    (filter : GoMap) (insertInfo : Value) (extraSetting : Option GoMap) : Run R :=
  updateWith false d now filter insertInfo extraSetting

/-- Go `UpsertOne`. -/
def UpsertOne {T R : Type} (d : Driver T R) (now : String)
    (filter : GoMap) (insertInfo : Value) (extraSetting : Option GoMap) : Run R :=
  updateWith true d now filter insertInfo extraSetting

/-- Go `FindOneAndUpdate`; the error of `r.Decode(&result)` is dropped. -/
def FindOneAndUpdate {T R : Type} (d : Driver T R) (now : String)
    (filter : GoMap) (settings : Value) (extraSetting : Option GoMap) : Run T :=
  match parseFilter filter with
  | .err e => ⟨[], .err e⟩
  | .panicked => ⟨[], .panicked⟩
  | .ok filter =>
    match genInsertSettings now settings with
    | .err e => ⟨[], .err e⟩
    | .panicked => ⟨[], .panicked⟩
    | .ok _settings =>
      match d.one (.FindOneAndUpdate filter (updateDoc _settings extraSetting)) with
      | .ok result => ⟨[.FindOneAndUpdate filter (updateDoc _settings extraSetting)], .ok result⟩
      | .error _ => ⟨[.FindOneAndUpdate filter (updateDoc _settings extraSetting)], .ok d.zero⟩

/-- Go `Delete`. -/
def Delete {T R : Type} (d : Driver T R) (oid : String) : Run R :=
  match parseFilter (GoMap.single "_id" (.str oid)) with
  | .err e => ⟨[], .err e⟩
  | .panicked => ⟨[], .panicked⟩
  | .ok filter => ⟨[.DeleteOne filter], ofWrite (d.write (.DeleteOne filter))⟩

/-- Go `append(ids, _id)` on a slice of identifiers; `none` is the nil slice,
and the result of `append` with an element is never nil. -/
def appendId (ids : Option (List ObjectID)) (_id : ObjectID) : Option (List ObjectID) :=
  match ids with
  | none => some [_id]
  | some l => some (l ++ [_id])

/-- The loop of `DeleteMany`: decode the identifiers left to right, stop at
the first error. `ids` is `none` while the slice is nil. -/
def DeleteMany.loop :
    List String → Option (List ObjectID) → Except HexError (Option (List ObjectID))
  | [], ids => .ok ids
  | oid :: rest, ids =>
    match ObjectIDFromHex oid with
    | .error e => .error e
    | .ok _id => DeleteMany.loop rest (appendId ids _id)

/-- The slice `ids` stored as a value in a map. -/
def idsValue : Option (List ObjectID) → Value
  | none => .nilSlice
  | some l => .list (l.map Value.oid)

/-- The filter `bson.M{"_id": bson.M{"$in": ids}}` of `DeleteMany`. -/
def inFilter (ids : Option (List ObjectID)) : GoMap :=
  GoMap.single "_id" (.map [("$in", idsValue ids)])

/-- Go `DeleteMany`; `var ids []primitive.ObjectID` starts as the nil slice. -/
def DeleteMany {T R : Type} (d : Driver T R) (oidlist : List String) : Run R :=
  match DeleteMany.loop oidlist none with
  | .error e => ⟨[], .err (.hex e)⟩
  | .ok ids => ⟨[.DeleteMany (inFilter ids)], ofWrite (d.write (.DeleteMany (inFilter ids)))⟩

/-! ## Auxiliary definitions for the statements -/

/-- Bytes of the UTF-8 encoding of one character. -/
def charBytes (c : Char) : List Nat :=
  (String.utf8EncodeChar c).map UInt8.toNat

/-- What `parseFilter` does with the value found under `"_id"`. -/
def parseId (filter : GoMap) : Option Value → Outcome GoMap
  | none => .ok filter
  | some (.str s) =>
    match ObjectIDFromHex s with
    | .error e => .err (.hex e)
    | .ok v => .ok (filter.insert "_id" (.oid v))
  | some _ => .panicked

instance : DecidablePred IsHexChar := fun c => by
  unfold IsHexChar; infer_instance

instance (s : String) : Decidable (IsHexIdentifier s) := by
  unfold IsHexIdentifier; infer_instance

/-- A driver that finds nothing and accepts every write; used to run the
operations on concrete inputs. -/
def quietDriver : Driver Unit Unit :=
  { zero := (), one := fun _ => .error .ErrNoDocuments, all := fun _ => .ok [],
    write := fun _ => .ok () }

mutual
/-- Whether the walk of `StructToMap` can process the value of a field without
external name: not the nil interface, and when a struct, one with readable
fields. -/
def readableValue : Value → Bool
  | .null => false
  | .struct fields => readableFields fields
  | _ => true
/-- Whether `reflect` can read every field that the walk of `StructToMap`
visits: each field is exported, and a field without external name does not
hold the nil interface; a struct held by such a field is checked in turn. -/
def readableFields : List (Field Value) → Bool
  | [] => true
  | ⟨exported, tag, value⟩ :: rest =>
    exported && (if jsonName tag = "" then readableValue value else true) &&
      readableFields rest
end

mutual
/-- Entries that a field without external name yields: those of its struct
value, and none when the value is not a struct. -/
def flattenValue : Value → List (String × Value)
  | .struct fields => flattenSpec fields
  | _ => []
/-- Reference definition of the flattening, after the specification: walk the
fields in declaration order; a field with an explicit external name `n`
yields the entry `n ↦ value`; a field without one whose value is a struct
yields the entries of that struct, flattened in the same way. -/
def flattenSpec : List (Field Value) → List (String × Value)
  | [] => []
  | ⟨_, tag, value⟩ :: rest =>
    if jsonName tag = "" then flattenValue value ++ flattenSpec rest
    else (jsonName tag, value) :: flattenSpec rest
end

/-- The value of the last entry with key `k`: of two entries with the same
key the one produced later decides. -/
def lastValue (k : String) (entries : List (String × Value)) : Option Value :=
  (entries.reverse.find? fun e => e.1 = k).map Prod.snd

/-! # Theorems -/

/-! ## Identifier decoding: lemmas -/

theorem fromHexChar_eq_none_iff (c : Nat) : fromHexChar c = none ↔ ¬ IsHexByte c := by
  unfold fromHexChar IsHexByte
  split_ifs <;> simp <;> omega

theorem fromHexChar_isSome_iff (c : Nat) : (∃ a, fromHexChar c = some a) ↔ IsHexByte c := by
  rw [← not_iff_not, ← fromHexChar_eq_none_iff]
  cases fromHexChar c <;> simp

theorem hexDecode_ok_iff : ∀ l : List Nat,
    (∃ bs, hexDecode l = .ok bs) ↔ (l.length % 2 = 0 ∧ ∀ c ∈ l, IsHexByte c)
  | [] => by simp [hexDecode]
  | [p] => by
    simp only [hexDecode]
    cases fromHexChar p <;> simp
  | p :: q :: rest => by
    have ih := hexDecode_ok_iff rest
    have hp := fromHexChar_isSome_iff p
    have hq := fromHexChar_isSome_iff q
    simp only [hexDecode]
    cases h1 : fromHexChar p with
    | none =>
      rw [h1] at hp
      simp at hp
      simp [hp]
    | some a =>
      rw [h1] at hp
      simp at hp
      cases h2 : fromHexChar q with
      | none =>
        rw [h2] at hq
        simp at hq
        simp [hq]
      | some b =>
        rw [h2] at hq
        simp at hq
        cases h3 : hexDecode rest with
        | error e =>
          rw [h3] at ih
          simp at ih
          simp only [List.length_cons, List.mem_cons, forall_eq_or_imp, hp, hq, true_and]
          simp
          intro h
          have : rest.length % 2 = 0 := by omega
          exact ih this
        | ok bs =>
          rw [h3] at ih
          simp at ih
          simp only [List.length_cons, List.mem_cons, forall_eq_or_imp, hp, hq, true_and]
          simp
          constructor
          · omega
          · exact ih.2

/-! ## Characters and bytes of an identifier string -/

theorem charBytes_ascii (c : Char) (h : c.toNat ≤ 127) : charBytes c = [c.toNat] := by
  have h2 : c.val ≤ 127 := h
  unfold charBytes String.utf8EncodeChar
  simp only [h2, if_true, List.map_cons, List.map_nil]
  congr 1
  show c.val.toNat % 256 = c.val.toNat
  have : c.val.toNat ≤ 127 := h
  omega

/-! The first byte of a multi-byte UTF-8 sequence has its top bit set; checked
on all 256 values of the byte for each of the three sequence lengths. -/

set_option maxRecDepth 100000 in
theorem leadByte2_fin : ∀ x : Fin 256,
    128 ≤ ((UInt8.mk (BitVec.ofFin x)) &&& 0x1f ||| 0xc0).toNat := by
  decide

set_option maxRecDepth 100000 in
theorem leadByte3_fin : ∀ x : Fin 256,
    128 ≤ ((UInt8.mk (BitVec.ofFin x)) &&& 0x0f ||| 0xe0).toNat := by
  decide

set_option maxRecDepth 100000 in
theorem leadByte4_fin : ∀ x : Fin 256,
    128 ≤ ((UInt8.mk (BitVec.ofFin x)) &&& 0x07 ||| 0xf0).toNat := by
  decide

theorem leadByte2_ge (x : UInt8) : 128 ≤ (x &&& 0x1f ||| 0xc0).toNat := by
  obtain ⟨⟨v⟩⟩ := x
  exact leadByte2_fin v

theorem leadByte3_ge (x : UInt8) : 128 ≤ (x &&& 0x0f ||| 0xe0).toNat := by
  obtain ⟨⟨v⟩⟩ := x
  exact leadByte3_fin v

theorem leadByte4_ge (x : UInt8) : 128 ≤ (x &&& 0x07 ||| 0xf0).toNat := by
  obtain ⟨⟨v⟩⟩ := x
  exact leadByte4_fin v

theorem charBytes_high (c : Char) (h : ¬ c.toNat ≤ 127) :
    ∃ b rest, charBytes c = b :: rest ∧ 128 ≤ b := by
  have h2 : ¬ c.val ≤ 127 := h
  unfold charBytes String.utf8EncodeChar
  simp only [h2, if_false]
  split_ifs
  · exact ⟨_, _, rfl, leadByte2_ge _⟩
  · exact ⟨_, _, rfl, leadByte3_ge _⟩
  · exact ⟨_, _, rfl, leadByte4_ge _⟩

theorem isHexChar_iff (c : Char) : IsHexChar c ↔ IsHexByte c.toNat := Iff.rfl

theorem goBytes_eq (s : String) : goBytes s = s.data.flatMap charBytes := by
  unfold goBytes charBytes
  rw [List.map_flatMap]

theorem flatMap_charBytes_of_hex (cs : List Char) (h : ∀ c ∈ cs, IsHexChar c) :
    cs.flatMap charBytes = cs.map Char.toNat := by
  induction cs with
  | nil => rfl
  | cons c rest ih =>
    have hc : IsHexByte c.toNat := h c (List.mem_cons_self _ _)
    have hle : c.toNat ≤ 127 := by
      unfold IsHexByte at hc
      omega
    rw [List.flatMap_cons, charBytes_ascii c hle,
      ih (fun d hd => h d (List.mem_cons_of_mem _ hd))]
    rfl

theorem hex_chars_of_hex_bytes (cs : List Char)
    (h : ∀ b ∈ cs.flatMap charBytes, IsHexByte b) : ∀ c ∈ cs, IsHexChar c := by
  intro c hc
  by_cases hle : c.toNat ≤ 127
  · apply h
    rw [List.mem_flatMap]
    exact ⟨c, hc, by rw [charBytes_ascii c hle]; exact List.mem_singleton.mpr rfl⟩
  · obtain ⟨b, rest, hb, hge⟩ := charBytes_high c hle
    have hbm : b ∈ cs.flatMap charBytes := by
      rw [List.mem_flatMap]
      exact ⟨c, hc, by rw [hb]; exact List.mem_cons_self _ _⟩
    have := h b hbm
    unfold IsHexByte at this
    omega

theorem isHexIdentifier_iff_bytes (s : String) :
    IsHexIdentifier s ↔ ((goBytes s).length = 24 ∧ ∀ b ∈ goBytes s, IsHexByte b) := by
  unfold IsHexIdentifier
  rw [goBytes_eq]
  constructor
  · rintro ⟨hlen, hall⟩
    rw [flatMap_charBytes_of_hex s.data hall]
    refine ⟨by simpa using hlen, ?_⟩
    intro b hb
    obtain ⟨c, hc, rfl⟩ := List.mem_map.mp hb
    exact hall c hc
  · rintro ⟨hlen, hall⟩
    have hchars := hex_chars_of_hex_bytes s.data hall
    rw [flatMap_charBytes_of_hex s.data hchars] at hlen
    exact ⟨by simpa using hlen, hchars⟩

theorem ObjectIDFromHex_ok_iff (s : String) :
    (∃ o, ObjectIDFromHex s = .ok o) ↔ IsHexIdentifier s := by
  rw [isHexIdentifier_iff_bytes]
  unfold ObjectIDFromHex
  by_cases hlen : (goBytes s).length = 24
  · have h := hexDecode_ok_iff (goBytes s)
    simp only [hlen, ne_eq, not_true_eq_false, if_false, true_and]
    cases hd : hexDecode (goBytes s) with
    | error e =>
      rw [hd] at h
      simp at h
      simp
      exact h (by omega)
    | ok bs =>
      rw [hd] at h
      simp at h
      simp
      exact h.2
  · simp [hlen]

theorem ObjectIDFromHex_error_iff (s : String) :
    (∃ e, ObjectIDFromHex s = .error e) ↔ ¬ IsHexIdentifier s := by
  rw [← ObjectIDFromHex_ok_iff]
  cases ObjectIDFromHex s <;> simp

/-! ## `parseFilter`: lemmas -/

theorem parseFilter_loop_of_not_mem (es : List (Sigma fun _ : String => Value))
    (filter : GoMap) (h : "_id" ∉ es.keys) : parseFilter.loop es filter = .ok filter := by
  induction es with
  | nil => rfl
  | cons e rest ih =>
    obtain ⟨key, value⟩ := e
    simp only [List.keys_cons, List.mem_cons, not_or] at h
    have hk : ¬ key = "_id" := fun hk => h.1 hk.symm
    simp only [parseFilter.loop, hk, if_false]
    exact ih h.2

theorem parseFilter_loop_eq (es : List (Sigma fun _ : String => Value)) (hnd : es.NodupKeys)
    (filter : GoMap) : parseFilter.loop es filter = parseId filter (es.dlookup "_id") := by
  induction es with
  | nil => rfl
  | cons e rest ih =>
    obtain ⟨key, value⟩ := e
    rw [List.nodupKeys_cons] at hnd
    by_cases hk : key = "_id"
    · subst hk
      rw [List.dlookup_cons_eq]
      cases value with
      | str s =>
        simp only [parseFilter.loop, if_true, parseId]
        cases ObjectIDFromHex s with
        | error e => rfl
        | ok v => exact parseFilter_loop_of_not_mem rest _ hnd.1
      | _ => simp only [parseFilter.loop, if_true, parseId]
    · have hk2 : "_id" ≠ key := fun h => hk h.symm
      rw [List.dlookup_cons_ne _ _ hk2]
      simp only [parseFilter.loop, hk, if_false]
      exact ih hnd.2

theorem parseFilter_eq (filter : GoMap) :
    parseFilter filter = parseId filter (filter.lookup "_id") :=
  parseFilter_loop_eq filter.entries filter.nodupKeys filter

theorem parseFilter_panics_of_not_string (filter : GoMap) (v : Value)
    (hv : filter.lookup "_id" = some v) (hns : ∀ s, v ≠ .str s) :
    parseFilter filter = .panicked := by
  rw [parseFilter_eq, hv]
  cases v <;> first | rfl | exact absurd rfl (hns _)

/-- C1: for a filter whose `"_id"` value, when present, is a string,
`parseFilter` returns an error exactly when the filter has the key `"_id"` and
that string is not 24 hexadecimal digits, and otherwise it returns a filter;
the returned filter has the keys of the input, the same value under every key
other than `"_id"`, and under `"_id"` the identifier decoded from the string.
`FindOne`, `Find`, `UpdateOne`, `UpsertOne`, `FindOneAndUpdate` and `Delete`
return the error of `parseFilter` without having sent any request. -/
theorem parseFilter_contract {T R : Type} (d : Driver T R) (now : String) (filter : GoMap)
    (hstr : ∀ v, filter.lookup "_id" = some v → ∃ s, v = Value.str s) :
    ((∃ e, parseFilter filter = .err e) ↔
        ∃ s, filter.lookup "_id" = some (.str s) ∧ ¬ IsHexIdentifier s) ∧
    ((∀ e, parseFilter filter ≠ .err e) → ∃ f, parseFilter filter = .ok f) ∧
    (∀ f, parseFilter filter = .ok f →
        (∀ k, k ∈ f ↔ k ∈ filter) ∧
        (∀ k, k ≠ "_id" → f.lookup k = filter.lookup k) ∧
        (∀ s, filter.lookup "_id" = some (.str s) →
          ∃ o, ObjectIDFromHex s = .ok o ∧ f.lookup "_id" = some (.oid o))) ∧
    (∀ e, parseFilter filter = .err e →
        ∀ (project : GoMap) (body : Value) (extra : Option GoMap),
          FindOne d filter project = ⟨[], .err e⟩ ∧
          Find d filter project = ⟨[], .err e⟩ ∧
          UpdateOne d now filter body extra = ⟨[], .err e⟩ ∧
          UpsertOne d now filter body extra = ⟨[], .err e⟩ ∧
          FindOneAndUpdate d now filter body extra = ⟨[], .err e⟩) ∧
    (∀ oid e, parseFilter (GoMap.single "_id" (.str oid)) = .err e →
        Delete d oid = ⟨[], .err e⟩) := by
  have hpf := parseFilter_eq filter
  refine ⟨?_, ?_, ?_, ?_, ?_⟩
  · cases hl : filter.lookup "_id" with
    | none => rw [hl] at hpf; simp [hpf, parseId]
    | some v =>
      obtain ⟨s, rfl⟩ := hstr v hl
      rw [hl] at hpf
      have herr := ObjectIDFromHex_error_iff s
      cases hd : ObjectIDFromHex s with
      | error e =>
        rw [hd] at herr
        simp at herr
        simp [hpf, parseId, hd, herr]
      | ok o =>
        rw [hd] at herr
        simp at herr
        simp [hpf, parseId, hd, herr]
  · intro hne
    cases hl : filter.lookup "_id" with
    | none => rw [hl] at hpf; exact ⟨filter, hpf⟩
    | some v =>
      obtain ⟨s, rfl⟩ := hstr v hl
      rw [hl] at hpf
      cases hd : ObjectIDFromHex s with
      | error e =>
        simp only [parseId, hd] at hpf
        exact absurd hpf (hne _)
      | ok o =>
        simp only [parseId, hd] at hpf
        exact ⟨_, hpf⟩
  · intro f hf
    cases hl : filter.lookup "_id" with
    | none =>
      rw [hl] at hpf
      simp only [parseId] at hpf
      rw [hpf] at hf
      cases hf
      simp
    | some v =>
      obtain ⟨s, rfl⟩ := hstr v hl
      rw [hl] at hpf
      cases hd : ObjectIDFromHex s with
      | error e =>
        simp only [parseId, hd] at hpf
        rw [hpf] at hf
        cases hf
      | ok o =>
        simp only [parseId, hd] at hpf
        rw [hpf] at hf
        cases hf
        have hmem : "_id" ∈ filter := by
          rw [← AList.lookup_isSome, hl]; rfl
        refine ⟨?_, ?_, ?_⟩
        · intro k
          rw [AList.mem_insert]
          constructor
          · rintro (rfl | h)
            · exact hmem
            · exact h
          · exact fun h => Or.inr h
        · intro k hk
          exact AList.lookup_insert_ne hk
        · intro s2 hs2
          cases hs2
          exact ⟨o, hd, AList.lookup_insert _⟩
  · intro e he project body extra
    simp only [FindOne, Find, UpdateOne, UpsertOne, updateWith, FindOneAndUpdate, he, and_self]
  · intro oid e he
    simp only [Delete, he]

/-- C9: `parseFilter` panics on a filter whose `"_id"` value is not a string:
on an operator sub-mapping `{"$in": [...]}`, and on the filter that an earlier
successful call of `parseFilter` returned, whose `"_id"` is then a native
identifier; `FindOne` on such a filter panics as well, having sent no
request. -/
theorem parseFilter_panics_on_non_string_id :
    parseFilter (GoMap.single "_id"
      (.map [("$in", .list [.str "5f8d0d55b54764421b7156c3"])])) = .panicked ∧
    (∃ f, parseFilter (GoMap.single "_id" (.str "5f8d0d55b54764421b7156c3")) = .ok f ∧
      parseFilter f = .panicked) ∧
    FindOne quietDriver (GoMap.single "_id"
      (.map [("$in", .list [.str "5f8d0d55b54764421b7156c3"])])) ∅ = ⟨[], .panicked⟩ :=
  ⟨rfl, ⟨_, rfl, rfl⟩, rfl⟩

/-- Witness of C1: the filter `{"a": 1, "_id": "zz"}` has a string under
`"_id"`; `parseFilter` fails on it and `FindOne` returns that error without a
request. -/
theorem parseFilter_contract_witness :
    (∀ v, (AList.insert "a" (Value.int 1) (GoMap.single "_id" (.str "zz"))).lookup "_id" = some v →
      ∃ s, v = Value.str s) ∧
    (∃ e, parseFilter (AList.insert "a" (Value.int 1) (GoMap.single "_id" (.str "zz")))
      = .err e) ∧
    (∃ e, FindOne quietDriver
      (AList.insert "a" (Value.int 1) (GoMap.single "_id" (.str "zz"))) ∅ = ⟨[], .err e⟩) := by
  have hstr : ∀ v, (AList.insert "a" (Value.int 1)
      (GoMap.single "_id" (.str "zz"))).lookup "_id" = some v → ∃ s, v = Value.str s := by
    intro v hv
    have h0 : (AList.insert "a" (Value.int 1)
      (GoMap.single "_id" (.str "zz"))).lookup "_id" = some (.str "zz") := rfl
    rw [h0] at hv
    exact ⟨"zz", (Option.some.inj hv).symm⟩
  have h := parseFilter_contract quietDriver "" _ hstr
  obtain ⟨e, he⟩ := h.1.mpr ⟨"zz", rfl, by decide⟩
  exact ⟨hstr, ⟨e, he⟩, e, (h.2.2.2.1 e he ∅ .null none).1⟩

/-! ## `DeleteMany` -/

theorem DeleteMany_loop_some (l : List String) (ids acc : List ObjectID)
    (h : List.Forall₂ (fun oid id => ObjectIDFromHex oid = .ok id) l ids) :
    DeleteMany.loop l (some acc) = .ok (some (acc ++ ids)) := by
  induction h generalizing acc with
  | nil => simp [DeleteMany.loop]
  | cons hx _ ih =>
    simp only [DeleteMany.loop, hx, appendId]
    rw [ih]
    simp

theorem DeleteMany_loop_ok (x : String) (rest : List String) (ids : List ObjectID)
    (h : List.Forall₂ (fun oid id => ObjectIDFromHex oid = .ok id) (x :: rest) ids) :
    DeleteMany.loop (x :: rest) none = .ok (some ids) := by
  cases h with
  | cons hx hrest =>
    simp only [DeleteMany.loop, hx, appendId]
    rw [DeleteMany_loop_some _ _ _ hrest]
    simp

theorem DeleteMany_loop_error (pre : List String) (s : String) (post : List String)
    (e : HexError) (acc : Option (List ObjectID))
    (hpre : ∀ x ∈ pre, ∃ id, ObjectIDFromHex x = .ok id)
    (hs : ObjectIDFromHex s = .error e) :
    DeleteMany.loop (pre ++ s :: post) acc = .error e := by
  induction pre generalizing acc with
  | nil => simp [DeleteMany.loop, hs]
  | cons x pre ih =>
    obtain ⟨id, hid⟩ := hpre x (List.mem_cons_self _ _)
    simp only [List.cons_append, DeleteMany.loop, hid]
    exact ih _ (fun y hy => hpre y (List.mem_cons_of_mem _ hy))

theorem exists_first_invalid (l : List String)
    (h : ∃ oid ∈ l, ∀ id, ObjectIDFromHex oid ≠ .ok id) :
    ∃ pre s post e, l = pre ++ s :: post ∧
      (∀ x ∈ pre, ∃ id, ObjectIDFromHex x = .ok id) ∧ ObjectIDFromHex s = .error e := by
  induction l with
  | nil => simp at h
  | cons x rest ih =>
    cases hx : ObjectIDFromHex x with
    | error e => exact ⟨[], x, rest, e, rfl, by simp, hx⟩
    | ok id =>
      obtain ⟨oid, hmem, hbad⟩ := h
      rcases List.mem_cons.mp hmem with rfl | hmem
      · exact absurd hx (hbad id)
      · obtain ⟨pre, s, post, e, hl, hpre, hs⟩ := ih ⟨oid, hmem, hbad⟩
        refine ⟨x :: pre, s, post, e, by simp [hl], ?_, hs⟩
        intro y hy
        rcases List.mem_cons.mp hy with rfl | hy
        · exact ⟨id, hx⟩
        · exact hpre y hy

theorem exists_all_decoded (l : List String)
    (h : ∀ oid ∈ l, ∃ id, ObjectIDFromHex oid = .ok id) :
    ∃ ids, List.Forall₂ (fun oid id => ObjectIDFromHex oid = .ok id) l ids := by
  induction l with
  | nil => exact ⟨[], List.Forall₂.nil⟩
  | cons x rest ih =>
    obtain ⟨id, hid⟩ := h x (List.mem_cons_self _ _)
    obtain ⟨ids, hids⟩ := ih (fun y hy => h y (List.mem_cons_of_mem _ hy))
    exact ⟨id :: ids, List.Forall₂.cons hid hids⟩

/-- C2: when some element of the list given to `DeleteMany` is not decodable,
`DeleteMany` returns the decode error of the first such element and sends no
request; when every element is decodable it sends exactly one delete request,
whose filter is `{"_id": {"$in": ids}}` with `ids` the slice of the decoded
identifiers in input order. For the empty list that slice is the nil slice the
code declared and never appended to; for a list with an element it is the
slice of the decoded identifiers, one per element. -/
theorem DeleteMany_contract {T R : Type} (d : Driver T R) (oidlist : List String) :
    ((∃ oid ∈ oidlist, ∀ id, ObjectIDFromHex oid ≠ .ok id) →
      ∃ pre s post e, oidlist = pre ++ s :: post ∧
        (∀ x ∈ pre, ∃ id, ObjectIDFromHex x = .ok id) ∧
        ObjectIDFromHex s = .error e ∧
        DeleteMany d oidlist = ⟨[], .err (.hex e)⟩) ∧
    (oidlist = [] →
      (DeleteMany d oidlist).calls =
        [.DeleteMany (AList.insert "_id" (Value.map [("$in", Value.nilSlice)]) ∅)]) ∧
    (oidlist ≠ [] → (∀ oid ∈ oidlist, ∃ id, ObjectIDFromHex oid = .ok id) →
      ∃ ids, List.Forall₂ (fun oid id => ObjectIDFromHex oid = .ok id) oidlist ids ∧
        (DeleteMany d oidlist).calls =
          [.DeleteMany
            (AList.insert "_id" (Value.map [("$in", Value.list (ids.map Value.oid))]) ∅)]) := by
  refine ⟨?_, ?_, ?_⟩
  · intro h
    obtain ⟨pre, s, post, e, hl, hpre, hs⟩ := exists_first_invalid oidlist h
    refine ⟨pre, s, post, e, hl, hpre, hs, ?_⟩
    simp only [DeleteMany, hl, DeleteMany_loop_error pre s post e none hpre hs]
  · rintro rfl
    rfl
  · intro hne h
    obtain ⟨ids, hids⟩ := exists_all_decoded oidlist h
    refine ⟨ids, hids, ?_⟩
    cases oidlist with
    | nil => exact absurd rfl hne
    | cons x rest =>
      simp only [DeleteMany, DeleteMany_loop_ok x rest ids hids]
      rfl

/-- Witness of C2: three identifiers, the second malformed, nothing is sent;
two decodable identifiers, one request with both, in input order. -/
theorem DeleteMany_contract_witness :
    (∃ oid ∈ ["5f8d0d55b54764421b7156c3", "5f8d0d55b5476442", "5f8d0d55b54764421b7156c4"],
      ∀ id, ObjectIDFromHex oid ≠ .ok id) ∧
    (∃ e, DeleteMany quietDriver
      ["5f8d0d55b54764421b7156c3", "5f8d0d55b5476442", "5f8d0d55b54764421b7156c4"]
      = ⟨[], .err (.hex e)⟩) ∧
    (∀ oid ∈ ["5f8d0d55b54764421b7156c3", "5f8d0d55b54764421b7156c4"],
      ∃ id, ObjectIDFromHex oid = .ok id) ∧
    (∃ ids, List.Forall₂ (fun oid id => ObjectIDFromHex oid = .ok id)
        ["5f8d0d55b54764421b7156c3", "5f8d0d55b54764421b7156c4"] ids ∧
      (DeleteMany quietDriver
        ["5f8d0d55b54764421b7156c3", "5f8d0d55b54764421b7156c4"]).calls =
        [.DeleteMany
          (AList.insert "_id" (Value.map [("$in", Value.list (ids.map Value.oid))]) ∅)]) := by
  have hbad : ∃ oid ∈ ["5f8d0d55b54764421b7156c3", "5f8d0d55b5476442",
      "5f8d0d55b54764421b7156c4"], ∀ id, ObjectIDFromHex oid ≠ .ok id :=
    ⟨"5f8d0d55b5476442", by simp, fun id h => by
      have h2 : ObjectIDFromHex "5f8d0d55b5476442" = .error .ErrInvalidHex := rfl
      rw [h2] at h
      cases h⟩
  have hgood : ∀ oid ∈ ["5f8d0d55b54764421b7156c3", "5f8d0d55b54764421b7156c4"],
      ∃ id, ObjectIDFromHex oid = .ok id := by
    intro oid hoid
    simp only [List.mem_cons, List.mem_singleton, List.not_mem_nil, or_false] at hoid
    rcases hoid with rfl | rfl
    · exact ⟨_, rfl⟩
    · exact ⟨_, rfl⟩
  obtain ⟨_, _, _, e, _, _, _, hrun⟩ := (DeleteMany_contract quietDriver _).1 hbad
  exact ⟨hbad, ⟨e, hrun⟩, hgood,
    (DeleteMany_contract quietDriver _).2.2 (by simp) hgood⟩

/-! ## Writing the entries of one map into another -/

theorem lookup_foldl_insert (es : List (Sigma fun _ : String => Value)) (hnd : es.NodupKeys)
    (m : GoMap) (k : String) :
    (es.foldl (fun s e => s.insert e.1 e.2) m).lookup k = (es.dlookup k).or (m.lookup k) := by
  induction es generalizing m with
  | nil => simp
  | cons e rest ih =>
    obtain ⟨a, b⟩ := e
    rw [List.nodupKeys_cons] at hnd
    simp only [List.foldl_cons]
    rw [ih hnd.2]
    by_cases hk : k = a
    · subst hk
      rw [List.dlookup_cons_eq, List.dlookup_eq_none.mpr hnd.1]
      simp [AList.lookup_insert]
    · rw [List.dlookup_cons_ne _ _ hk, AList.lookup_insert_ne hk]

theorem copyInto_lookup (settings newMap : GoMap) (k : String) :
    (copyInto settings newMap).lookup k = (newMap.lookup k).or (settings.lookup k) :=
  lookup_foldl_insert newMap.entries newMap.nodupKeys settings k

/-! ## `MergeFilters` -/

theorem MergeFilters_foldl_lookup (fs : List GoMap) (m : GoMap) (k : String) :
    (fs.foldl
      (fun mergedMap f => f.entries.foldl (fun m e => m.insert e.1 e.2) mergedMap) m).lookup k
      = (fs.reverse.findSome? fun f => f.lookup k).or (m.lookup k) := by
  induction fs generalizing m with
  | nil => simp
  | cons f rest ih =>
    simp only [List.foldl_cons]
    rw [ih, lookup_foldl_insert f.entries f.nodupKeys m k]
    simp only [List.reverse_cons, List.findSome?_append, Option.or_assoc]
    congr 1
    simp only [List.findSome?_cons, List.findSome?_nil]
    change (AList.lookup k f).or _ = _
    generalize AList.lookup k f = o
    cases o <;> rfl

theorem MergeFilters_lookup (fs : List GoMap) (k : String) :
    (MergeFilters fs).lookup k = fs.reverse.findSome? fun f => f.lookup k := by
  unfold MergeFilters
  rw [MergeFilters_foldl_lookup]
  simp

theorem findSome_reverse_last {α β : Type} (L : α → Option β) (pre : List α) (f : α)
    (post : List α) (v : β) (hf : L f = some v) (hpost : ∀ g ∈ post, L g = none) :
    (pre ++ f :: post).reverse.findSome? L = some v := by
  have h1 : post.reverse.findSome? L = none := by
    rw [List.findSome?_eq_none_iff]
    intro g hg
    exact hpost g (List.mem_reverse.mp hg)
  simp [List.findSome?_append, h1, List.findSome?_cons, hf]

/-- C6: the key set of `MergeFilters` is the union of the key sets of the
fragments, each key holds the value it has in the last fragment that contains
it, the merge of no fragment is the empty filter, and
`{"x":1}, {"x":2}, {"y":3}` merge to `{"x":2, "y":3}`. -/
theorem MergeFilters_contract (filters : List GoMap) :
    (∀ k, k ∈ MergeFilters filters ↔ ∃ f ∈ filters, k ∈ f) ∧
    (∀ k pre f post v, filters = pre ++ f :: post → f.lookup k = some v →
      (∀ g ∈ post, k ∉ g) → (MergeFilters filters).lookup k = some v) ∧
    MergeFilters [] = ∅ ∧
    MergeFilters [GoMap.single "x" (.int 1), GoMap.single "x" (.int 2),
        GoMap.single "y" (.int 3)]
      = AList.insert "y" (.int 3) (GoMap.single "x" (.int 2)) := by
  refine ⟨?_, ?_, rfl, rfl⟩
  · intro k
    rw [← AList.lookup_isSome, MergeFilters_lookup, Option.isSome_iff_exists]
    constructor
    · rintro ⟨v, hv⟩
      obtain ⟨f, hf, hfv⟩ := List.exists_of_findSome?_eq_some hv
      refine ⟨f, List.mem_reverse.mp hf, ?_⟩
      rw [← AList.lookup_isSome, hfv]
      rfl
    · rintro ⟨f, hf, hk⟩
      rw [← Option.isSome_iff_exists, List.findSome?_isSome_iff]
      exact ⟨f, List.mem_reverse.mpr hf, AList.lookup_isSome.mpr hk⟩
  · intro k pre f post v hl hf hpost
    rw [MergeFilters_lookup, hl]
    exact findSome_reverse_last _ pre f post v hf
      (fun g hg => AList.lookup_eq_none.mpr (hpost g hg))

/-- Witness of C6: `"x"` holds the value of the second of three fragments. -/
theorem MergeFilters_contract_witness :
    (∀ g ∈ [GoMap.single "y" (.int 3)], "x" ∉ g) ∧
    (MergeFilters [GoMap.single "x" (.int 1), GoMap.single "x" (.int 2),
        GoMap.single "y" (.int 3)]).lookup "x" = some (.int 2) := by
  have hpost : ∀ g ∈ [GoMap.single "y" (.int 3)], "x" ∉ g := by
    intro g hg
    rw [List.mem_singleton] at hg
    subst hg
    rw [← AList.lookup_eq_none]
    rfl
  exact ⟨hpost, (MergeFilters_contract _).2.1 "x" [GoMap.single "x" (.int 1)]
    (GoMap.single "x" (.int 2)) [GoMap.single "y" (.int 3)] (.int 2) rfl rfl hpost⟩

/-! ## `MapMerge` and the update document -/

theorem lookup_foldl_keep {K V : Type} [DecidableEq K] (es : List (Sigma fun _ : K => V))
    (res : AList fun _ : K => V) (k : K) :
    (es.foldl (fun res e => if (res.lookup e.1).isSome then res else res.insert e.1 e.2)
      res).lookup k = (res.lookup k).or (es.dlookup k) := by
  induction es generalizing res with
  | nil => simp
  | cons e rest ih =>
    obtain ⟨a, b⟩ := e
    simp only [List.foldl_cons]
    rw [ih]
    by_cases hk : k = a
    · subst hk
      rw [List.dlookup_cons_eq]
      cases h : res.lookup k with
      | none => simp [h, AList.lookup_insert]
      | some x => simp [h]
    · rw [List.dlookup_cons_ne _ _ hk]
      cases h : res.lookup a with
      | none => simp [h, AList.lookup_insert_ne hk]
      | some x => simp [h]

theorem MapMerge_foldl_lookup {K V : Type} [DecidableEq K] (ms : List (AList fun _ : K => V))
    (res : AList fun _ : K => V) (k : K) :
    (ms.foldl
      (fun res m =>
        m.entries.foldl
          (fun res e => if (res.lookup e.1).isSome then res else res.insert e.1 e.2) res)
      res).lookup k = (res.lookup k).or (ms.findSome? fun m => m.lookup k) := by
  induction ms generalizing res with
  | nil => simp
  | cons m rest ih =>
    simp only [List.foldl_cons]
    rw [ih, lookup_foldl_keep, Option.or_assoc]
    congr 1
    simp only [List.findSome?_cons]
    change (AList.lookup k m).or _ = _
    generalize AList.lookup k m = o
    cases o <;> rfl

theorem MapMerge_lookup {K V : Type} [DecidableEq K] (ms : List (AList fun _ : K => V))
    (k : K) : (MapMerge ms).lookup k = ms.findSome? fun m => m.lookup k := by
  unfold MapMerge
  rw [MapMerge_foldl_lookup]
  simp

theorem updateDoc_lookup_set (settings : GoMap) (extra : Option GoMap) :
    (updateDoc settings extra).lookup "$set" = some settings.toValue := by
  cases extra with
  | none => rfl
  | some e =>
    simp only [updateDoc, MapMerge_lookup, List.findSome?_cons, GoMap.single,
      AList.lookup_insert]

theorem updateDoc_lookup_ne (settings : GoMap) (extra : Option GoMap) (k : String)
    (hk : k ≠ "$set") :
    (updateDoc settings extra).lookup k = extra.bind fun e => e.lookup k := by
  cases extra with
  | none =>
    simp only [updateDoc, GoMap.single, AList.lookup_insert_ne hk, Option.bind]
    rfl
  | some e =>
    simp only [updateDoc, MapMerge_lookup, List.findSome?_cons, GoMap.single,
      AList.lookup_insert_ne hk, Option.bind, List.findSome?_nil]
    have h0 : AList.lookup k (∅ : GoMap) = none := rfl
    rw [h0]
    cases AList.lookup k e <;> rfl

theorem lookup_entries (es : List (Sigma fun _ : String => Value)) (k : String) :
    List.lookup k (es.map fun x => (x.1, x.2)) = es.dlookup k := by
  induction es with
  | nil => rfl
  | cons e rest ih =>
    obtain ⟨a, v⟩ := e
    rw [List.map_cons, List.lookup_cons]
    by_cases hk : k = a
    · subst hk
      simp [List.dlookup_cons_eq]
    · have hka : (k == a) = false := by simpa using hk
      rw [hka, List.dlookup_cons_ne _ _ hk]
      exact ih

/-- C5: `MapMerge` maps each key to its value in the first of the maps that
contains it, and its keys are the union of the keys of the maps. When the
filter is valid and the body is coerced to `settings`, `UpdateOne`,
`UpsertOne` and `FindOneAndUpdate` each send one request, with the parsed
filter and one and the same update document: `{"$set": settings}` when
`extraSetting` is nil and `MapMerge({"$set": settings}, extraSetting)`
otherwise. The keys of the document are `"$set"` and the keys of
`extraSetting`; under `"$set"` it holds the mapping whose entries are exactly
the entries of `settings`, whatever `extraSetting` holds under that key; every
other key holds the value of `extraSetting`. -/
theorem updateDoc_contract {T R : Type} (d : Driver T R) (now : String)
    (filter f : GoMap) (body : Value) (settings : GoMap) (extra : Option GoMap)
    (hf : parseFilter filter = .ok f) (hs : genInsertSettings now body = .ok settings) :
    (∃ update : GoMap,
      (UpdateOne d now filter body extra).calls = [.UpdateOne f update false] ∧
      (UpsertOne d now filter body extra).calls = [.UpdateOne f update true] ∧
      (FindOneAndUpdate d now filter body extra).calls = [.FindOneAndUpdate f update] ∧
      (∀ e, extra = some e →
        update = MapMerge
          [AList.insert "$set" (Value.map (settings.entries.map fun x => (x.1, x.2))) ∅, e]) ∧
      (extra = none →
        update = AList.insert "$set" (Value.map (settings.entries.map fun x => (x.1, x.2))) ∅) ∧
      update.lookup "$set" = some (Value.map (settings.entries.map fun x => (x.1, x.2))) ∧
      (∀ k, k ≠ "$set" → update.lookup k = extra.bind fun e => e.lookup k) ∧
      (∀ k, k ∈ update ↔ k = "$set" ∨ ∃ e, extra = some e ∧ k ∈ e)) ∧
    (∀ k, List.lookup k (settings.entries.map fun x => (x.1, x.2)) = settings.lookup k) ∧
    (∀ (K V : Type) [DecidableEq K] (ms : List (AList fun _ : K => V)) (k : K),
      (MapMerge ms).lookup k = ms.findSome? fun m => m.lookup k) ∧
    (∀ (K V : Type) [DecidableEq K] (ms : List (AList fun _ : K => V)) (k : K),
      k ∈ MapMerge ms ↔ ∃ m ∈ ms, k ∈ m) := by
  refine ⟨⟨updateDoc settings extra, ?_, ?_, ?_, ?_, ?_, updateDoc_lookup_set _ _,
    updateDoc_lookup_ne _ _, ?_⟩, fun k => lookup_entries settings.entries k,
    fun _ _ _ ms k => MapMerge_lookup ms k, ?_⟩
  · simp only [UpdateOne, updateWith, hf, hs]
  · simp only [UpsertOne, updateWith, hf, hs]
  · simp only [FindOneAndUpdate, hf, hs]
    cases d.one (.FindOneAndUpdate f (updateDoc settings extra)) <;> rfl
  · rintro e rfl
    rfl
  · rintro rfl
    rfl
  · intro k
    by_cases hk : k = "$set"
    · subst hk
      simp only [true_or, iff_true]
      rw [← AList.lookup_isSome, updateDoc_lookup_set]
      rfl
    · rw [← AList.lookup_isSome, updateDoc_lookup_ne _ _ _ hk]
      cases extra with
      | none => simp [hk]
      | some e => simp [hk, AList.lookup_isSome]
  · intro K V _ ms k
    rw [← AList.lookup_isSome, MapMerge_lookup, List.findSome?_isSome_iff]
    simp only [AList.lookup_isSome]

/-- Witness of C5: the body `{"a": 1}` and an extra fragment with the keys
`"$inc"` and `"$set"`. The `"$set"` of the update document holds the coerced
body, `a` and the timestamp, and not the `"$set"` of the fragment; `"$inc"`
holds the value of the fragment. -/
theorem updateDoc_contract_witness :
    parseFilter (AList.insert "_id" (Value.str "5f8d0d55b54764421b7156c3") ∅)
      = .ok (AList.insert "_id"
          (Value.oid ⟨[95, 141, 13, 85, 181, 71, 100, 66, 27, 113, 86, 195]⟩) ∅) ∧
    genInsertSettings "2024-05-06 07:08:09.123456789 +0000 UTC" (.map [("a", .int 1)])
      = .ok (AList.insert "sys_updated_at" (Value.str "2024-05-06 07:08:09")
          (AList.insert "a" (Value.int 1) ∅)) ∧
    ∃ update : GoMap,
      (UpdateOne quietDriver "2024-05-06 07:08:09.123456789 +0000 UTC"
        (AList.insert "_id" (Value.str "5f8d0d55b54764421b7156c3") ∅) (.map [("a", .int 1)])
        (some (AList.insert "$inc" (Value.map [("n", .int 1)])
          (AList.insert "$set" (Value.map [("zz", .int 9)]) ∅)))).calls
        = [.UpdateOne
            (AList.insert "_id"
              (Value.oid ⟨[95, 141, 13, 85, 181, 71, 100, 66, 27, 113, 86, 195]⟩) ∅)
            update false] ∧
      update.lookup "$set" = some (Value.map
        [("sys_updated_at", Value.str "2024-05-06 07:08:09"), ("a", Value.int 1)]) ∧
      update.lookup "$inc" = some (Value.map [("n", .int 1)]) := by
  have h := updateDoc_contract quietDriver "2024-05-06 07:08:09.123456789 +0000 UTC"
    (AList.insert "_id" (Value.str "5f8d0d55b54764421b7156c3") ∅)
    (AList.insert "_id"
      (Value.oid ⟨[95, 141, 13, 85, 181, 71, 100, 66, 27, 113, 86, 195]⟩) ∅)
    (.map [("a", .int 1)])
    (AList.insert "sys_updated_at" (Value.str "2024-05-06 07:08:09")
      (AList.insert "a" (Value.int 1) ∅))
    (some (AList.insert "$inc" (Value.map [("n", .int 1)])
      (AList.insert "$set" (Value.map [("zz", .int 9)]) ∅))) rfl rfl
  obtain ⟨update, h1, _, _, _, _, hset, hother, _⟩ := h.1
  exact ⟨rfl, rfl, update, h1, hset, hother "$inc" (by decide)⟩

/-! ## `MergeQueryOptions` -/

theorem MergeQueryOptions_foldl_Filters (post : List (Option QueryOptions))
    (acc : QueryOptions) (h : ∀ q, some q ∈ post → q.Filters = none) :
    (post.foldl MergeQueryOptions.step acc).Filters = acc.Filters := by
  induction post generalizing acc with
  | nil => rfl
  | cons o rest ih =>
    simp only [List.foldl_cons]
    rw [ih _ (fun q hq => h q (List.mem_cons_of_mem _ hq))]
    cases o with
    | none => rfl
    | some q =>
      have hq := h q (List.mem_cons_self _ _)
      simp [MergeQueryOptions.step, hq]

theorem MergeQueryOptions_foldl_Project (post : List (Option QueryOptions))
    (acc : QueryOptions) (h : ∀ q, some q ∈ post → q.Project = none) :
    (post.foldl MergeQueryOptions.step acc).Project = acc.Project := by
  induction post generalizing acc with
  | nil => rfl
  | cons o rest ih =>
    simp only [List.foldl_cons]
    rw [ih _ (fun q hq => h q (List.mem_cons_of_mem _ hq))]
    cases o with
    | none => rfl
    | some q =>
      have hq := h q (List.mem_cons_self _ _)
      simp [MergeQueryOptions.step, hq]

/-- C7, counterexample: the second of two fragments has a `Filters` map that
is not nil but has no entry; it replaces the `Filters` `{"x": 1}` of the first
fragment, which is the last fragment whose `Filters` has an entry. -/
theorem MergeQueryOptions_empty_replaces :
    (MergeQueryOptions
      [some { Filters := some (GoMap.single "x" (.int 1)), Project := none,
              WithoutPagination := false },
       some { Filters := some ∅, Project := none, WithoutPagination := false }]).Filters
      = some ∅ ∧
    (MergeQueryOptions
      [some { Filters := some (GoMap.single "x" (.int 1)), Project := none,
              WithoutPagination := false },
       some { Filters := some ∅, Project := none, WithoutPagination := false }]).Filters
      ≠ some (GoMap.single "x" (.int 1)) := by
  refine ⟨rfl, ?_⟩
  intro h
  have h2 := congrArg (fun o : Option GoMap => o.map fun m => m.entries.length) h
  revert h2
  decide

/-- C7, amended: the `Filters` field of the result of `MergeQueryOptions` is
the `Filters` of the last non-nil fragment whose `Filters` is not nil, be it
an empty map, and it is nil when no fragment has a non-nil `Filters`; the same
holds of `Project`. -/
theorem MergeQueryOptions_last_non_nil (opts : List (Option QueryOptions)) :
    (∀ pre q post, opts = pre ++ some q :: post → q.Filters ≠ none →
      (∀ q2, some q2 ∈ post → q2.Filters = none) →
      (MergeQueryOptions opts).Filters = q.Filters) ∧
    ((∀ q, some q ∈ opts → q.Filters = none) → (MergeQueryOptions opts).Filters = none) ∧
    (∀ pre q post, opts = pre ++ some q :: post → q.Project ≠ none →
      (∀ q2, some q2 ∈ post → q2.Project = none) →
      (MergeQueryOptions opts).Project = q.Project) ∧
    ((∀ q, some q ∈ opts → q.Project = none) → (MergeQueryOptions opts).Project = none) := by
  refine ⟨?_, ?_, ?_, ?_⟩
  · rintro pre q post rfl hq hpost
    unfold MergeQueryOptions
    rw [List.foldl_append, List.foldl_cons, MergeQueryOptions_foldl_Filters _ _ hpost]
    cases hF : q.Filters with
    | none => exact absurd hF hq
    | some m => simp [MergeQueryOptions.step, hF]
  · intro h
    unfold MergeQueryOptions
    rw [MergeQueryOptions_foldl_Filters _ _ h]
    rfl
  · rintro pre q post rfl hq hpost
    unfold MergeQueryOptions
    rw [List.foldl_append, List.foldl_cons, MergeQueryOptions_foldl_Project _ _ hpost]
    cases hP : q.Project with
    | none => exact absurd hP hq
    | some m => simp [MergeQueryOptions.step, hP]
  · intro h
    unfold MergeQueryOptions
    rw [MergeQueryOptions_foldl_Project _ _ h]
    rfl

/-- Witness of C7, amended: the empty but non-nil `Filters` of the second
fragment is the result, the third fragment being nil. -/
theorem MergeQueryOptions_last_non_nil_witness :
    (∀ q2, some q2 ∈ ([none] : List (Option QueryOptions)) → q2.Filters = none) ∧
    (MergeQueryOptions
      [some { Filters := some (GoMap.single "x" (.int 1)), Project := none,
              WithoutPagination := false },
       some { Filters := some ∅, Project := none, WithoutPagination := true },
       none]).Filters = some ∅ := by
  have hpost : ∀ q2, some q2 ∈ ([none] : List (Option QueryOptions)) → q2.Filters = none := by
    intro q2 h
    simp at h
  exact ⟨hpost, (MergeQueryOptions_last_non_nil _).1
    [some { Filters := some (GoMap.single "x" (.int 1)), Project := none,
            WithoutPagination := false }]
    { Filters := some ∅, Project := none, WithoutPagination := true } [none] rfl
    (by simp) hpost⟩

/-- C8: for a non-empty list of non-nil fragments the `WithoutPagination`
field of the result of `MergeQueryOptions` is that of the last fragment; the
values `true, false` in that order give `false`. -/
theorem MergeQueryOptions_WithoutPagination (qs : List QueryOptions) (hne : qs ≠ []) :
    (MergeQueryOptions (qs.map some)).WithoutPagination
      = (qs.getLast hne).WithoutPagination ∧
    (MergeQueryOptions
      [some { Filters := none, Project := none, WithoutPagination := true },
       some { Filters := none, Project := none, WithoutPagination := false }]
      ).WithoutPagination = false := by
  refine ⟨?_, rfl⟩
  conv_lhs => rw [← List.dropLast_append_getLast hne]
  unfold MergeQueryOptions
  rw [List.map_append, List.foldl_append]
  rfl

/-- Witness of C8: the flags `true, false` give `false`. -/
theorem MergeQueryOptions_WithoutPagination_witness :
    ([{ Filters := some ∅, Project := none, WithoutPagination := true },
      { Filters := none, Project := none, WithoutPagination := false }]
        : List QueryOptions) ≠ [] ∧
    (MergeQueryOptions
      ([{ Filters := some ∅, Project := none, WithoutPagination := true },
        { Filters := none, Project := none, WithoutPagination := false }].map some)
      ).WithoutPagination = false :=
  ⟨by simp, (MergeQueryOptions_WithoutPagination _ (by simp)).1⟩

/-! ## `StructToMap` against the reference flattening -/

theorem lastValue_append (k : String) (xs ys : List (String × Value)) :
    lastValue k (xs ++ ys) = (lastValue k ys).or (lastValue k xs) := by
  unfold lastValue
  rw [List.reverse_append, List.find?_append]
  cases List.find? (fun e => decide (e.1 = k)) ys.reverse <;> rfl

theorem lastValue_cons (k a : String) (v : Value) (es : List (String × Value)) :
    lastValue k ((a, v) :: es) = (lastValue k es).or (if a = k then some v else none) := by
  have h := lastValue_append k [(a, v)] es
  rw [List.singleton_append] at h
  rw [h]
  congr 1
  unfold lastValue
  by_cases hk : a = k <;> simp [hk]

theorem lookup_insert_eq_or (m : GoMap) (a k : String) (v : Value) :
    (m.insert a v).lookup k = (if a = k then some v else none).or (m.lookup k) := by
  by_cases hk : a = k
  · subst hk
    simp [AList.lookup_insert]
  · have hk2 : k ≠ a := fun h => hk h.symm
    simp [hk, AList.lookup_insert_ne hk2]

theorem StructToMap_loop_spec : ∀ (n : Nat) (fields : List (Field Value)),
    sizeOf fields ≤ n → ∀ settings : GoMap,
    (readableFields fields = true →
      ∃ m, StructToMap.loop fields settings = .ok m ∧
        ∀ k, m.lookup k = (lastValue k (flattenSpec fields)).or (settings.lookup k)) ∧
    (readableFields fields = false → StructToMap.loop fields settings = .panicked) := by
  intro n
  induction n with
  | zero =>
    intro fields hsz settings
    cases fields with
    | nil =>
      refine ⟨fun _ => ⟨settings, rfl, fun k => ?_⟩, fun h => ?_⟩
      · simp [flattenSpec, lastValue]
      · simp [readableFields] at h
    | cons f rest => simp at hsz
  | succ n ih =>
    intro fields hsz settings
    cases fields with
    | nil =>
      refine ⟨fun _ => ⟨settings, rfl, fun k => ?_⟩, fun h => ?_⟩
      · simp [flattenSpec, lastValue]
      · simp [readableFields] at h
    | cons f rest =>
      obtain ⟨exported, tag, value⟩ := f
      simp only [List.cons.sizeOf_spec, Field.mk.sizeOf_spec] at hsz
      have hrest : sizeOf rest ≤ n := by omega
      cases exported with
      | false =>
        refine ⟨fun h => ?_, fun _ => ?_⟩
        · simp [readableFields] at h
        · cases value <;> simp [StructToMap.loop]
      | true =>
        by_cases hname : jsonName tag = ""
        · cases value with
          | null =>
            refine ⟨fun h => ?_, fun _ => ?_⟩
            · simp [readableFields, readableValue, hname] at h
            · simp [StructToMap.loop, hname]
          | struct fs =>
            simp only [Value.struct.sizeOf_spec] at hsz
            have hfs : sizeOf fs ≤ n := by omega
            have hin := ih fs hfs ∅
            simp only [readableFields, readableValue, hname, if_true, Bool.true_and,
              Bool.and_eq_true, Bool.and_eq_false_iff]
            simp only [StructToMap.loop, StructToMap, hname, if_true, flattenSpec, flattenValue]
            constructor
            · rintro ⟨h1, h2⟩
              obtain ⟨newMap, hnew, hlook⟩ := hin.1 h1
              obtain ⟨m, hm, hmlook⟩ := (ih rest hrest (copyInto settings newMap)).1 h2
              refine ⟨m, ?_, fun k => ?_⟩
              · simp [hnew, hm]
              · have h0 : AList.lookup k (∅ : GoMap) = none := rfl
                rw [hmlook, copyInto_lookup, hlook, lastValue_append, h0]
                simp [Option.or_assoc]
            · rintro (h1 | h2)
              · simp [hin.2 h1]
              · cases h1 : readableFields fs with
                | false => simp [hin.2 h1]
                | true =>
                  obtain ⟨newMap, hnew, _⟩ := hin.1 h1
                  simp [hnew, (ih rest hrest (copyInto settings newMap)).2 h2]
          | bool b =>
            have hr := ih rest hrest settings
            simpa [readableFields, readableValue, StructToMap.loop, hname, flattenSpec,
              flattenValue] using hr
          | int i =>
            have hr := ih rest hrest settings
            simpa [readableFields, readableValue, StructToMap.loop, hname, flattenSpec,
              flattenValue] using hr
          | str s =>
            have hr := ih rest hrest settings
            simpa [readableFields, readableValue, StructToMap.loop, hname, flattenSpec,
              flattenValue] using hr
          | oid o =>
            have hr := ih rest hrest settings
            simpa [readableFields, readableValue, StructToMap.loop, hname, flattenSpec,
              flattenValue] using hr
          | nilSlice =>
            have hr := ih rest hrest settings
            simpa [readableFields, readableValue, StructToMap.loop, hname, flattenSpec,
              flattenValue] using hr
          | list vs =>
            have hr := ih rest hrest settings
            simpa [readableFields, readableValue, StructToMap.loop, hname, flattenSpec,
              flattenValue] using hr
          | map es =>
            have hr := ih rest hrest settings
            simpa [readableFields, readableValue, StructToMap.loop, hname, flattenSpec,
              flattenValue] using hr
        · have hr := ih rest hrest (settings.insert (jsonName tag) value)
          have hloop : StructToMap.loop (⟨true, tag, value⟩ :: rest) settings
              = StructToMap.loop rest (settings.insert (jsonName tag) value) := by
            cases value <;> simp [StructToMap.loop, hname]
          rw [hloop]
          simp only [readableFields, hname, if_false, Bool.true_and, flattenSpec]
          refine ⟨fun h => ?_, hr.2⟩
          obtain ⟨m, hm, hmlook⟩ := hr.1 h
          refine ⟨m, hm, fun k => ?_⟩
          rw [hmlook, lastValue_cons, lookup_insert_eq_or, Option.or_assoc]

theorem StructToMap_ok_lookup (fields : List (Field Value)) (m : GoMap)
    (hm : StructToMap (.struct fields) = .ok m) :
    readableFields fields = true ∧ ∀ k, m.lookup k = lastValue k (flattenSpec fields) := by
  have h := StructToMap_loop_spec (sizeOf fields) fields (le_refl _) ∅
  rw [StructToMap] at hm
  cases hr : readableFields fields with
  | false =>
    rw [h.2 hr] at hm
    cases hm
  | true =>
    obtain ⟨m2, hm2, hlook⟩ := h.1 hr
    rw [hm2] at hm
    cases hm
    refine ⟨rfl, fun k => ?_⟩
    rw [hlook]
    have h0 : AList.lookup k (∅ : GoMap) = none := rfl
    rw [h0]
    simp

theorem flattenSpec_append (xs ys : List (Field Value)) :
    flattenSpec (xs ++ ys) = flattenSpec xs ++ flattenSpec ys := by
  induction xs with
  | nil => simp [flattenSpec]
  | cons f rest ih =>
    obtain ⟨exported, tag, value⟩ := f
    by_cases hname : jsonName tag = "" <;> simp [flattenSpec, hname, ih]

theorem mem_flattenSpec (fields : List (Field Value)) (f : Field Value) (hf : f ∈ fields)
    (hname : jsonName f.jsonTag ≠ "") :
    (jsonName f.jsonTag, f.value) ∈ flattenSpec fields := by
  induction fields with
  | nil => simp at hf
  | cons g rest ih =>
    obtain ⟨exported, tag, value⟩ := g
    rcases List.mem_cons.mp hf with rfl | hmem
    · simp only [ne_eq] at hname
      simp [flattenSpec, hname]
    · by_cases hg : jsonName tag = ""
      · simp [flattenSpec, hg, ih hmem]
      · simp [flattenSpec, hg, ih hmem]

theorem lastValue_isSome_of_mem (k : String) (v : Value) (es : List (String × Value))
    (h : (k, v) ∈ es) : (lastValue k es).isSome = true := by
  unfold lastValue
  rw [Option.isSome_map', List.find?_isSome]
  exact ⟨(k, v), List.mem_reverse.mpr h, by simp⟩

/-! ## `genInsertSettings` -/

theorem copyMap_foldl_lookup (entries : List (String × Value)) (ks : List String)
    (m : GoMap) (k : String) :
    (ks.foldl
      (fun settings key =>
        match List.lookup key entries with
        | some value => settings.insert key value
        | none => settings) m).lookup k
      = if k ∈ ks then (List.lookup k entries).or (m.lookup k) else m.lookup k := by
  induction ks generalizing m with
  | nil => simp
  | cons a rest ih =>
    simp only [List.foldl_cons]
    rw [ih]
    by_cases hk : k = a
    · subst hk
      simp only [List.mem_cons, true_or, if_true]
      cases hl : List.lookup k entries with
      | none => simp
      | some v => simp [AList.lookup_insert]
    · simp only [List.mem_cons, hk, false_or]
      cases hl : List.lookup a entries with
      | none => simp
      | some v => simp [AList.lookup_insert_ne hk]

theorem lookup_eq_none_of_not_mem (entries : List (String × Value)) (k : String)
    (h : k ∉ entries.map Prod.fst) : List.lookup k entries = none := by
  induction entries with
  | nil => rfl
  | cons e rest ih =>
    obtain ⟨a, v⟩ := e
    simp only [List.map_cons, List.mem_cons, not_or] at h
    rw [List.lookup_cons]
    have hka : (k == a) = false := by simpa using h.1
    rw [hka]
    exact ih h.2

theorem copyMap_lookup (entries : List (String × Value)) (k : String) :
    (copyMap entries).lookup k = List.lookup k entries := by
  unfold copyMap
  rw [copyMap_foldl_lookup]
  have h0 : AList.lookup k (∅ : GoMap) = none := rfl
  by_cases hk : k ∈ entries.map Prod.fst
  · simp [hk, h0]
  · simp [hk, h0, lookup_eq_none_of_not_mem entries k hk]

theorem stamp_lookup_id (now : String) (settings : GoMap) :
    (stamp now settings).lookup "_id" = none := by
  unfold stamp
  exact AList.lookup_erase _ _

theorem stamp_lookup_updated (now : String) (settings : GoMap) :
    (stamp now settings).lookup "sys_updated_at" = some (.str (timestamp now)) := by
  unfold stamp
  rw [AList.lookup_erase_ne (by decide), AList.lookup_insert]

theorem stamp_lookup_other (now : String) (settings : GoMap) (k : String)
    (h1 : k ≠ "_id") (h2 : k ≠ "sys_updated_at") :
    (stamp now settings).lookup k = settings.lookup k := by
  unfold stamp
  rw [AList.lookup_erase_ne h1, AList.lookup_insert_ne h2]

theorem genInsertSettings_ok_stamp (now : String) (insertInfo : Value) (s : GoMap)
    (hs : genInsertSettings now insertInfo = .ok s) : ∃ m, s = stamp now m := by
  cases insertInfo with
  | null => simp [genInsertSettings] at hs
  | map entries =>
    simp only [genInsertSettings, Outcome.ok.injEq] at hs
    exact ⟨_, hs.symm⟩
  | struct fields =>
    simp only [genInsertSettings] at hs
    cases hm : StructToMap (.struct fields) with
    | ok m =>
      rw [hm] at hs
      simp only [Outcome.ok.injEq] at hs
      exact ⟨_, hs.symm⟩
    | err e => rw [hm] at hs; cases hs
    | panicked => rw [hm] at hs; cases hs
  | _ => simp [genInsertSettings, StructToMap] at hs

/-- C3: the settings that `genInsertSettings` returns never have the key
`"_id"` and always hold the timestamp under `"sys_updated_at"`; for a generic
mapping it returns settings in which every other key holds exactly what the
input holds under it, and nothing when the input has no such key; for a struct
it returns settings whenever `StructToMap` returns a mapping, which it does
for every struct whose fields can be read, and every other key then holds
what that mapping holds. `{"a":1,"b":2,"_id":"x"}` gives `a=1`, `b=2` and
`sys_updated_at`, three keys in all. -/
theorem genInsertSettings_contract (now : String) (insertInfo : Value) :
    (∀ s, genInsertSettings now insertInfo = .ok s →
      s.lookup "_id" = none ∧ s.lookup "sys_updated_at" = some (.str (timestamp now))) ∧
    (∀ entries, insertInfo = .map entries →
      ∃ s, genInsertSettings now insertInfo = .ok s ∧
        ∀ k, k ≠ "_id" → k ≠ "sys_updated_at" → s.lookup k = List.lookup k entries) ∧
    (∀ fields m, insertInfo = .struct fields → StructToMap (.struct fields) = .ok m →
      ∃ s, genInsertSettings now insertInfo = .ok s ∧
        ∀ k, k ≠ "_id" → k ≠ "sys_updated_at" → s.lookup k = m.lookup k) ∧
    (∀ fields, insertInfo = .struct fields → readableFields fields = true →
      ∃ s, genInsertSettings now insertInfo = .ok s) ∧
    (∃ s, genInsertSettings "2024-05-06 07:08:09.123456789 +0000 UTC m=+0.000012345"
        (.map [("a", .int 1), ("b", .int 2), ("_id", .str "x")]) = .ok s ∧
      s.lookup "a" = some (.int 1) ∧ s.lookup "b" = some (.int 2) ∧
      s.lookup "sys_updated_at" = some (.str "2024-05-06 07:08:09") ∧
      s.lookup "_id" = none ∧ s.keys.length = 3) := by
  refine ⟨?_, ?_, ?_, ?_, ⟨_, rfl, rfl, rfl, rfl, rfl, rfl⟩⟩
  · intro s hs
    obtain ⟨m, rfl⟩ := genInsertSettings_ok_stamp now insertInfo s hs
    exact ⟨stamp_lookup_id now m, stamp_lookup_updated now m⟩
  · rintro entries rfl
    refine ⟨_, rfl, fun k h1 h2 => ?_⟩
    rw [stamp_lookup_other now _ k h1 h2, copyMap_lookup]
  · rintro fields m rfl hm
    refine ⟨stamp now m, ?_, fun k h1 h2 => stamp_lookup_other now m k h1 h2⟩
    simp only [genInsertSettings, hm]
  · rintro fields rfl hr
    obtain ⟨m, hm, _⟩ := (StructToMap_loop_spec (sizeOf fields) fields (le_refl _) ∅).1 hr
    refine ⟨stamp now m, ?_⟩
    simp only [genInsertSettings, StructToMap, hm]

/-- Witness of C3: a struct with fields `_id` and `name`. -/
theorem genInsertSettings_contract_witness :
    readableFields [⟨true, "_id", .str "5f8d0d55b54764421b7156c3"⟩,
      ⟨true, "name,omitempty", .str "ann"⟩] = true ∧
    ∃ s, genInsertSettings "2024-05-06 07:08:09.123456789 +0000 UTC"
        (.struct [⟨true, "_id", .str "5f8d0d55b54764421b7156c3"⟩,
          ⟨true, "name,omitempty", .str "ann"⟩]) = .ok s ∧
      s.lookup "_id" = none ∧
      s.lookup "sys_updated_at" = some (.str (timestamp "2024-05-06 07:08:09.123456789 +0000 UTC")) := by
  refine ⟨rfl, ?_⟩
  have h := genInsertSettings_contract "2024-05-06 07:08:09.123456789 +0000 UTC"
    (.struct [⟨true, "_id", .str "5f8d0d55b54764421b7156c3"⟩,
      ⟨true, "name,omitempty", .str "ann"⟩])
  obtain ⟨s, hs⟩ := h.2.2.2.1 _ rfl rfl
  exact ⟨s, hs, h.1 s hs⟩

/-- C4: `StructToMap` evaluated where it departs from the reference
definition. On the struct whose only field, with external name `"name"` and
value `"x"`, is not exported, the reference definition gives `name ↦ "x"` and
`StructToMap` panics in `v.Field(i).Interface()`; on the struct whose only
field has no external name and holds the nil interface, the reference
definition gives the empty mapping and `StructToMap` panics in
`fieldType.Kind()`. On neither struct does it return the mapping of the
reference definition. -/
theorem StructToMap_panics_on_unreadable :
    StructToMap (.struct [⟨false, "name", .str "x"⟩]) = .panicked ∧
    lastValue "name" (flattenSpec [⟨false, "name", .str "x"⟩]) = some (.str "x") ∧
    StructToMap (.struct [⟨true, "", .null⟩]) = .panicked ∧
    flattenSpec [⟨true, "", .null⟩] = [] ∧
    (¬ ∃ m, StructToMap (.struct [⟨false, "name", .str "x"⟩]) = .ok m ∧
      ∀ k, m.lookup k = lastValue k (flattenSpec [⟨false, "name", .str "x"⟩])) ∧
    (¬ ∃ m, StructToMap (.struct [⟨true, "", .null⟩]) = .ok m ∧
      ∀ k, m.lookup k = lastValue k (flattenSpec [⟨true, "", .null⟩])) := by
  refine ⟨rfl, rfl, rfl, rfl, ?_, ?_⟩
  · rintro ⟨m, hm, _⟩
    have h : StructToMap (.struct [⟨false, "name", .str "x"⟩]) = .panicked := rfl
    rw [h] at hm
    cases hm
  · rintro ⟨m, hm, _⟩
    have h : StructToMap (.struct [⟨true, "", .null⟩]) = .panicked := rfl
    rw [h] at hm
    cases hm

/-- Support for C4: on every struct value whose fields can be read,
`StructToMap` returns the mapping of the reference definition, in which each
key holds the value of the last entry that the walk in declaration order
yields for it. A named field declared after an embedded struct overrides the
promoted field of the same name, and an embedded struct declared after it
overrides the named field. -/
theorem StructToMap_refines_flattenSpec (fields : List (Field Value)) :
    (readableFields fields = true →
      ∃ m, StructToMap (.struct fields) = .ok m ∧
        ∀ k, m.lookup k = lastValue k (flattenSpec fields)) ∧
    (∃ m, StructToMap (.struct
        [⟨true, "", .struct [⟨true, "name", .str "inner"⟩, ⟨true, "age", .int 3⟩]⟩,
         ⟨true, "name", .str "outer"⟩]) = .ok m ∧
      m.lookup "name" = some (.str "outer") ∧ m.lookup "age" = some (.int 3)) ∧
    (∃ m, StructToMap (.struct
        [⟨true, "name", .str "outer"⟩,
         ⟨true, "", .struct [⟨true, "name", .str "inner"⟩, ⟨true, "age", .int 3⟩]⟩]) = .ok m ∧
      m.lookup "name" = some (.str "inner") ∧ m.lookup "age" = some (.int 3)) := by
  have h := StructToMap_loop_spec (sizeOf fields) fields (le_refl _) ∅
  refine ⟨fun hr => ?_, ⟨_, rfl, rfl, rfl⟩, ⟨_, rfl, rfl, rfl⟩⟩
  obtain ⟨m, hm, hlook⟩ := h.1 hr
  exact ⟨m, by rw [StructToMap]; exact hm, (StructToMap_ok_lookup fields m
    (by rw [StructToMap]; exact hm)).2⟩

/-- An embedded struct followed by a named field: its fields can be read, and
`StructToMap` returns the mapping of the reference definition. -/
theorem StructToMap_refines_flattenSpec_witness :
    readableFields
      [⟨true, "", .struct [⟨true, "name", .str "inner"⟩]⟩, ⟨true, "name", .str "outer"⟩]
      = true ∧
    ∃ m, StructToMap (.struct
        [⟨true, "", .struct [⟨true, "name", .str "inner"⟩]⟩, ⟨true, "name", .str "outer"⟩])
        = .ok m ∧
      ∀ k, m.lookup k = lastValue k (flattenSpec
        [⟨true, "", .struct [⟨true, "name", .str "inner"⟩]⟩, ⟨true, "name", .str "outer"⟩]) :=
  ⟨rfl, (StructToMap_refines_flattenSpec _).1 rfl⟩

/-- C10, counterexample: a field tagged `"-"` is not skipped; `StructToMap`
stores its value under the key `"-"`, and the settings of `genInsertSettings`
have that entry too. -/
theorem StructToMap_dash_not_skipped :
    (∃ m, StructToMap (.struct
        [⟨true, "name", .str "ann"⟩, ⟨true, "-", .str "secret"⟩]) = .ok m ∧
      m.lookup "-" = some (.str "secret")) ∧
    (∃ s, genInsertSettings "2024-05-06 07:08:09.123456789 +0000 UTC" (.struct
        [⟨true, "name", .str "ann"⟩, ⟨true, "-", .str "secret"⟩]) = .ok s ∧
      s.lookup "-" = some (.str "secret")) :=
  ⟨⟨_, rfl, rfl⟩, ⟨_, rfl, rfl⟩⟩

/-- C10, amended: a field tagged `"-"` is treated like any field with an
external name. Whenever `StructToMap` returns a mapping for a struct that has
a field tagged `"-"`, the mapping has the key `"-"`; it holds the value of
that field when the field is declared last; and the settings returned by
`genInsertSettings` hold the same value under `"-"`. -/
theorem StructToMap_keeps_dash (fields : List (Field Value)) (m : GoMap)
    (hm : StructToMap (.struct fields) = .ok m)
    (hdash : ∃ f ∈ fields, jsonName f.jsonTag = "-") :
    "-" ∈ m ∧
    (∀ pre f, fields = pre ++ [f] → jsonName f.jsonTag = "-" →
      m.lookup "-" = some f.value) ∧
    (∀ now, ∃ s, genInsertSettings now (.struct fields) = .ok s ∧
      s.lookup "-" = m.lookup "-") := by
  have hlook := (StructToMap_ok_lookup fields m hm).2
  refine ⟨?_, ?_, ?_⟩
  · obtain ⟨f, hf, hname⟩ := hdash
    rw [← AList.lookup_isSome, hlook]
    have hne : jsonName f.jsonTag ≠ "" := by rw [hname]; decide
    have hmem := mem_flattenSpec fields f hf hne
    rw [hname] at hmem
    exact lastValue_isSome_of_mem "-" f.value _ hmem
  · rintro pre f rfl hname
    obtain ⟨exported, tag, value⟩ := f
    simp only at hname
    have hne : ¬ jsonName tag = "" := by rw [hname]; decide
    rw [hlook, flattenSpec_append, lastValue_append]
    have h1 : lastValue "-" (flattenSpec [⟨exported, tag, value⟩]) = some value := by
      simp [flattenSpec, hne, hname, lastValue]
    rw [h1]
    rfl
  · intro now
    refine ⟨stamp now m, ?_, stamp_lookup_other now m "-" (by decide) (by decide)⟩
    simp only [genInsertSettings, hm]

/-- Witness of C10, amended: a struct whose second field is tagged `"-"`. -/
theorem StructToMap_keeps_dash_witness :
    (∃ f ∈ ([⟨true, "name", .str "ann"⟩, ⟨true, "-", .str "secret"⟩] : List (Field Value)),
      jsonName f.jsonTag = "-") ∧
    ∃ m, StructToMap (.struct [⟨true, "name", .str "ann"⟩, ⟨true, "-", .str "secret"⟩])
        = .ok m ∧ "-" ∈ m := by
  have hdash : ∃ f ∈ ([⟨true, "name", .str "ann"⟩, ⟨true, "-", .str "secret"⟩]
      : List (Field Value)), jsonName f.jsonTag = "-" :=
    ⟨⟨true, "-", .str "secret"⟩, by simp, rfl⟩
  exact ⟨hdash, AList.insert "-" (.str "secret") (AList.insert "name" (.str "ann") ∅), rfl,
    (StructToMap_keeps_dash [⟨true, "name", .str "ann"⟩, ⟨true, "-", .str "secret"⟩]
      (AList.insert "-" (.str "secret") (AList.insert "name" (.str "ann") ∅)) rfl hdash).1⟩

end Reed
